import Mathlib

/-!
A shallow embedding of `main.py` of the rust-logs-parser repository.

Lines and file contents are modelled as `List Char` (one `Char` per byte; the
repository opens files in binary mode and decodes each line as UTF-8, and all
behaviour relevant here is byte-per-character).  Python string operations used
by the source (`startswith`, slicing, `strip`, `partition`, `rsplit("_", 1)`,
`os.path.basename`, `Path(...).stem`) are given as explicit executable
definitions.  `datetime.strptime(ts, "%m/%d/%Y %H:%M:%S")` is modelled by
`strptimeMDY` (failure = the `ValueError` the source lets propagate), and the
naive-local `datetime.timestamp()` conversion by `localEpoch`, parameterised by
`tz`, the local UTC offset in seconds in effect for the parsed wall time.
The SQLite store is modelled by `DBState` with the operations of class `DB`.
-/

set_option maxHeartbeats 1000000

/-- Whitespace characters stripped by Python `str.strip()` (the ASCII ones). -/
def pyIsSpace (c : Char) : Bool :=
  c = ' ' || c = '\t' || c = '\n' || c = '\r' || c = '\x0b' || c = '\x0c'

/-- Python `str.lstrip()`. -/
def pyLstrip (cs : List Char) : List Char := cs.dropWhile pyIsSpace

/-- Python `str.rstrip()`. -/
def pyRstrip (cs : List Char) : List Char := (cs.reverse.dropWhile pyIsSpace).reverse

/-- Python `str.strip()`. -/
def pyStrip (cs : List Char) : List Char := pyRstrip (pyLstrip cs)

/-- Python `s.partition(" ")`, keeping the parts before and after the first
space (the source binds them to `who` and `what`); when there is no space the
second component is empty, as in Python. -/
def partSpace : List Char → List Char × List Char
  | [] => ([], [])
  | c :: cs =>
    if c = ' ' then ([], cs)
    else
      let p := partSpace cs
      (c :: p.1, p.2)

/-- Python `s.rsplit("_", 1)` when it yields two pieces: splits at the last
occurrence of `sep`; `none` when `sep` does not occur (in the source the
two-element destructuring then raises `ValueError`). -/
def rsplitOnce (sep : Char) : List Char → Option (List Char × List Char)
  | [] => none
  | c :: rest =>
    match rsplitOnce sep rest with
    | some (a, b) => some (c :: a, b)
    | none => if c = sep then some ([], rest) else none

/-- Python `os.path.basename`: the part after the last `/`. -/
def pyBasename (s : String) : String :=
  String.mk ((s.toList.reverse.takeWhile (fun c => c ≠ '/')).reverse)

/-- Index of the last occurrence of `c`, if any. -/
def lastIdxOf (c : Char) (cs : List Char) : Option Nat :=
  match cs.reverse.findIdx? (fun x => x = c) with
  | some j => some (cs.length - 1 - j)
  | none => none

/-- Python `pathlib.Path(name).stem`: drop the last `.`-suffix, but only when
the last dot is neither the first nor the last character of the name. -/
def pyStem (name : String) : String :=
  let cs := name.toList
  match lastIdxOf '.' cs with
  | some i => if 0 < i ∧ i < cs.length - 1 then String.mk (cs.take i) else name
  | none => name

/-- Numeric value of an ASCII digit. -/
def digitVal (c : Char) : Option Nat :=
  if c.isDigit then some (c.toNat - 48) else none

/-- Read one or two digits, greedily, as `strptime`'s numeric directives do
when the next character is a non-digit separator. -/
def readNum12 : List Char → Option (Nat × List Char)
  | [] => none
  | [c] =>
    match digitVal c with
    | some d => some (d, [])
    | none => none
  | c1 :: c2 :: rest =>
    match digitVal c1, digitVal c2 with
    | some d1, some d2 => some (10 * d1 + d2, rest)
    | some d1, none => some (d1, c2 :: rest)
    | none, _ => none

/-- Read exactly four digits, as `strptime`'s `%Y` does. -/
def readNum4 : List Char → Option (Nat × List Char)
  | c1 :: c2 :: c3 :: c4 :: rest =>
    match digitVal c1, digitVal c2, digitVal c3, digitVal c4 with
    | some a, some b, some c, some d => some (1000 * a + 100 * b + 10 * c + d, rest)
    | _, _, _, _ => none
  | _ => none

/-- Expect one literal character. -/
def expectC (ch : Char) : List Char → Option (List Char)
  | [] => none
  | c :: rest => if c = ch then some rest else none

/-- Gregorian leap year, as Python's `calendar`/`datetime` use. -/
def isLeap (y : Nat) : Bool :=
  y % 4 = 0 && (y % 100 != 0 || y % 400 = 0)

/-- Days in a month (`0` for an invalid month number). -/
def daysInMonth (y m : Nat) : Nat :=
  if m = 1 ∨ m = 3 ∨ m = 5 ∨ m = 7 ∨ m = 8 ∨ m = 10 ∨ m = 12 then 31
  else if m = 4 ∨ m = 6 ∨ m = 9 ∨ m = 11 then 30
  else if m = 2 then (if isLeap y then 29 else 28)
  else 0

/-- Model of `datetime.strptime(ts, "%m/%d/%Y %H:%M:%S")` followed by the
`datetime` constructor's range validation: returns `(y, m, d, h, mi, s)`, or
`none` where the source raises `ValueError`.  The whole input must be
consumed; fields are one or two digits (`%Y`: exactly four) and validated
exactly where Python accepts them and yields a constructible `datetime`. -/
def strptimeMDY (cs : List Char) : Option (Nat × Nat × Nat × Nat × Nat × Nat) := do
  let (m, r) ← readNum12 cs
  let r ← expectC '/' r
  let (d, r) ← readNum12 r
  let r ← expectC '/' r
  let (y, r) ← readNum4 r
  let r ← expectC ' ' r
  let (h, r) ← readNum12 r
  let r ← expectC ':' r
  let (mi, r) ← readNum12 r
  let r ← expectC ':' r
  let (s, r) ← readNum12 r
  if r = [] ∧ 1 ≤ m ∧ m ≤ 12 ∧ 1 ≤ d ∧ d ≤ daysInMonth y m ∧ 1 ≤ y ∧
      h ≤ 23 ∧ mi ≤ 59 ∧ s ≤ 59 then
    some (y, m, d, h, mi, s)
  else
    none

/-- Days from 1970-01-01 to the given civil date (valid for years ≥ 1). -/
def daysFromCivil (y m d : Nat) : Int :=
  let y' := if m ≤ 2 then y - 1 else y
  let era := y' / 400
  let yoe := y' - era * 400
  let mp := if 2 < m then m - 3 else m + 9
  let doy := (153 * mp + 2) / 5 + (d - 1)
  let doe := yoe * 365 + yoe / 4 - yoe / 100 + doy
  (Int.ofNat (era * 146097 + doe)) - 719468

/-- Model of `int(datetime(...).timestamp())` for a naive local datetime:
`tz` is the local UTC offset in seconds for the given wall-clock time. -/
def localEpoch (tz : Int) (y m d h mi s : Nat) : Int :=
  daysFromCivil y m d * 86400 + (Int.ofNat (h * 3600 + mi * 60 + s)) - tz

/-- The fragment the per-line parsing in `Importer.parse_file` computes:
`timestamp`/`epoch` and the `partition(" ")` pieces `who`/`what`. -/
structure ParsedLine where
  timestamp : String
  epoch : Int
  who : String
  what : String
deriving DecidableEq

/-- One iteration of the line loop of `Importer.parse_file` (main.py lines
147–164): bracketed lines take `line[1:20]` as the timestamp (raising —
`none` — when it does not parse), convert it to a local epoch, and use
`line[22:].strip()` as the body; other lines use the marker `"empty line"`,
epoch `0`, and the untrimmed line; the body is then split by
`partition(" ")` into `who` and `what`. -/
def parseLine (tz : Int) (line : List Char) : Option ParsedLine :=
  if line.head? = some '[' then
    let ts := (line.take 20).drop 1
    match strptimeMDY ts with
    | none => none
    | some (y, m, d, h, mi, s) =>
      let log := pyStrip (line.drop 22)
      let p := partSpace log
      some ⟨String.mk ts, localEpoch tz y m d h mi s, String.mk p.1, String.mk p.2⟩
  else
    let p := partSpace line
    some ⟨"empty line", 0, String.mk p.1, String.mk p.2⟩

/-- A row of the `files` table (`id`, `file_path`, `file_offset`). -/
structure FileRow where
  id : Nat
  file_path : String
  file_offset : Nat
deriving DecidableEq

/-- A row of the `logs` table, with the values `DB.add_log` inserts.  The
source passes the filename-derived `entity_id` piece — a Python string —
straight through, so the field is a `String` here (see the schema below for
the declared column type). -/
structure LogRow where
  entity_id : String
  entity_name : String
  player_name : String
  datetime : String
  epoch : Int
  log : String
  file_id : Nat
deriving DecidableEq

/-- Column names and declared SQLite types of the `logs` table, from the
`CREATE TABLE` statement in `DB.__init__`. -/
def logs_schema : List (String × String) :=
  [("id", "INTEGER"), ("entity_id", "INTEGER"), ("entity_name", "TEXT"),
   ("player_name", "TEXT"), ("datetime", "TEXT"), ("log", "TEXT"),
   ("epoch", "INTEGER"), ("file_id", "INTEGER")]

/-- The SQLite database state: the two tables plus the next AUTOINCREMENT id
for `files`. -/
structure DBState where
  files : List FileRow
  logs : List LogRow
  nextId : Nat
deriving DecidableEq

/-- Offset lookup over a `files` table: the first row whose `file_path`
matches (SQLite `fetchone`), defaulting to `0`. -/
def getOff (l : List FileRow) (fp : String) : Nat :=
  match l.find? (fun r => r.file_path == fp) with
  | some r => r.file_offset
  | none => 0

/-- `DB.get_file_offset`: stored offset for `fp`, or `0` if unseen. -/
def DBState.get_file_offset (db : DBState) (fp : String) : Nat :=
  getOff db.files fp

/-- `DB.get_file_id`: the id of the row for `fp`, inserting a fresh row with
offset `0` when there is none (returning `cursor.lastrowid`). -/
def DBState.get_file_id (db : DBState) (fp : String) : Nat × DBState :=
  match db.files.find? (fun r => r.file_path == fp) with
  | some r => (r.id, db)
  | none =>
    (db.nextId,
     { db with files := db.files ++ [⟨db.nextId, fp, 0⟩], nextId := db.nextId + 1 })

/-- `DB.upsert_file`: update the offset of the rows for `fp` if any exists
(the `COUNT(*)` check followed by `UPDATE`), otherwise insert a new row. -/
def DBState.upsert_file (db : DBState) (fp : String) (off : Nat) : DBState :=
  if db.files.any (fun r => r.file_path == fp) then
    { db with files :=
        db.files.map (fun r => if r.file_path == fp then { r with file_offset := off } else r) }
  else
    { db with files := db.files ++ [⟨db.nextId, fp, off⟩], nextId := db.nextId + 1 }

/-- `DB.add_log`: append one row to `logs`. -/
def DBState.add_log (db : DBState) (row : LogRow) : DBState :=
  { db with logs := db.logs ++ [row] }

/-- Split a byte sequence into lines the way iterating a binary Python file
does: each line keeps its terminating `'\n'`; a final unterminated chunk is
its own line. -/
def splitLinesKeep : List Char → List (List Char)
  | [] => []
  | c :: cs =>
    if c = '\n' then ['\n'] :: splitLinesKeep cs
    else
      match splitLinesKeep cs with
      | [] => [[c]]
      | l :: ls => (c :: l) :: ls

/-- The body of the `for b_line in log_file` loop of `Importer.parse_file`:
parse each line and `add_log` the result; a line whose bracketed timestamp
does not parse raises, which ends the pass with the rows added so far kept
(each `add_log` commits) — the Boolean records whether the pass completed. -/
def processLines (tz : Int) (eid ename : String) (fid : Nat) :
    List (List Char) → DBState → DBState × Bool
  | [], db => (db, true)
  | l :: ls, db =>
    match parseLine tz l with
    | none => (db, false)
    | some p =>
      processLines tz eid ename fid ls
        (db.add_log ⟨eid, ename, p.who, p.timestamp, p.epoch, p.what, fid⟩)

/-- The file system an import run reads: path to byte content, `none` when
opening the file raises `IOError`. -/
def FileSys := String → Option (List Char)

/-- `Importer.parse_file fp offset`: derive `entity_name`/`entity_id` by
splitting the filename stem at its last `_` (a stem with no `_` raises —
`(db, false)` — before anything is stored), ensure a file id, open the file,
seek to `offset`, run the line loop, and commit `tell()` as the new offset
only when the pass completed and `tell() > offset`.  The Boolean is `false`
exactly when the source raises out of `parse_file`. -/
def parse_file (tz : Int) (fs : FileSys) (fp : String) (offset : Nat) (db : DBState) :
    DBState × Bool :=
  match rsplitOnce '_' (pyStem (pyBasename fp)).toList with
  | none => (db, false)
  | some (en, ei) =>
    let g := db.get_file_id fp
    match fs fp with
    | none => (g.2, false)
    | some content =>
      let rest := content.drop offset
      let r := processLines tz (String.mk ei) (String.mk en) g.1 (splitLinesKeep rest) g.2
      if r.2 then
        if offset < offset + rest.length then (r.1.upsert_file fp (offset + rest.length), true)
        else (r.1, true)
      else (r.1, false)

/-- `Importer.import_new_data`, with the discovered file list as input: each
file is parsed from its stored offset, in order; an exception from
`parse_file` propagates (there is no try/except), so the run stops at the
first failing file. -/
def import_new_data (tz : Int) (fs : FileSys) : List String → DBState → DBState × Bool
  | [], db => (db, true)
  | f :: rest, db =>
    let r := parse_file tz fs f (db.get_file_offset f) db
    if r.2 then import_new_data tz fs rest r.1 else (r.1, false)

/-- Length of a file's content, `0` for an unreadable file. -/
def contentLen (fs : FileSys) (f : String) : Nat :=
  match fs f with
  | some c => c.length
  | none => 0

/-- The empty database (AUTOINCREMENT ids start at 1). -/
def db0 : DBState := ⟨[], [], 1⟩

/-- A directory fixture: `a_1.log` holds a bracketed line whose timestamp is
malformed; `b_2.log` is well-formed. -/
def fsC1 : FileSys := fun f =>
  if f = "a_1.log" then some (("[oops\n").toList)
  else if f = "b_2.log" then some (("Goblin dies\n").toList)
  else none

/-- The timestamped example line of the specification. -/
def claimLine : List Char := ("[01/15/2024 13:45:02]  Orc hits Goblin for 5").toList

/-- What `parseLine` produces on `claimLine` at `tz = 0`. -/
def claimParsed : ParsedLine :=
  ⟨"01/15/2024 13:45:02", localEpoch 0 2024 1 15 13 45 2, "Orc", "hits Goblin for 5"⟩

/-- A second directory fixture: a file whose stem ends in `_`, leaving an
empty entity id. -/
def fsC10 : FileSys := fun f =>
  if f = "name_.log" then some (("Goblin dies\n").toList) else none

/-- A store that already holds `b_2.log` fully read (offset 12). -/
def dbW : DBState := ⟨[⟨1, "b_2.log", 12⟩], [], 2⟩

lemma mk_eq_empty_iff (w : List Char) : String.mk w = "" ↔ w = [] :=
  ⟨fun h => congrArg String.data h, fun h => by rw [h]⟩

lemma head_dropWhile (p : Char → Bool) :
    ∀ (l : List Char) (c : Char), (l.dropWhile p).head? = some c → p c = false := by
  intro l
  induction l with
  | nil => intro c h; simp [List.dropWhile] at h
  | cons a as ih =>
    intro c h
    rw [List.dropWhile_cons] at h
    by_cases ha : p a = true
    · rw [if_pos ha] at h; exact ih c h
    · rw [if_neg ha] at h
      have hac : a = c := by simpa using h
      subst hac
      exact Bool.eq_false_iff.mpr ha

lemma pyRstrip_getLast (l : List Char) (c : Char)
    (h : (pyRstrip l).getLast? = some c) : pyIsSpace c = false := by
  unfold pyRstrip at h
  rw [List.getLast?_reverse] at h
  exact head_dropWhile _ _ _ h

lemma pyStrip_getLast (l : List Char) (c : Char)
    (h : (pyStrip l).getLast? = some c) : pyIsSpace c = false :=
  pyRstrip_getLast _ _ h

lemma head_pyRstrip (l : List Char) (c : Char)
    (h : (pyRstrip l).head? = some c) : l.head? = some c := by
  unfold pyRstrip at h
  rw [List.head?_reverse] at h
  obtain ⟨pre, hpre⟩ := List.dropWhile_suffix (l := l.reverse) pyIsSpace
  have hne : l.reverse.dropWhile pyIsSpace ≠ [] := by
    intro hnil; rw [hnil] at h; simp [List.getLast?] at h
  rw [← List.getLast?_reverse l, ← hpre, List.getLast?_append_of_ne_nil _ hne]
  exact h

lemma head_pyStrip (l : List Char) (c : Char)
    (h : (pyStrip l).head? = some c) : pyIsSpace c = false :=
  head_dropWhile _ _ _ (head_pyRstrip _ _ h)

lemma partSpace_fst_nil_iff (l : List Char) :
    (partSpace l).1 = [] ↔ l = [] ∨ l.head? = some ' ' := by
  cases l with
  | nil => simp [partSpace]
  | cons c cs => by_cases hc : c = ' ' <;> simp [partSpace, hc]

lemma partSpace_fst_head (l : List Char) (c : Char)
    (h : (partSpace l).1.head? = some c) : l.head? = some c := by
  cases l with
  | nil => simp [partSpace] at h
  | cons a as =>
    by_cases ha : a = ' '
    · simp [partSpace, ha] at h
    · simp only [partSpace, if_neg ha, List.head?_cons, Option.some.injEq] at h
      rw [List.head?_cons, h]

lemma partSpace_snd_getLast (l : List Char) (c : Char)
    (h : (partSpace l).2.getLast? = some c) : l.getLast? = some c := by
  induction l with
  | nil => simp [partSpace] at h
  | cons a as ih =>
    by_cases ha : a = ' '
    · simp only [partSpace, if_pos ha] at h
      cases as with
      | nil => simp [List.getLast?] at h
      | cons b bs => rw [List.getLast?_cons_cons]; exact h
    · simp only [partSpace, if_neg ha] at h
      have h2 := ih h
      cases as with
      | nil => simp [partSpace, List.getLast?] at h
      | cons b bs => rw [List.getLast?_cons_cons]; exact h2

lemma pyLstrip_nil_iff (l : List Char) : pyLstrip l = [] ↔ l.all pyIsSpace = true := by
  unfold pyLstrip
  rw [List.dropWhile_eq_nil_iff, List.all_eq_true]

lemma pyRstrip_nil_iff (l : List Char) : pyRstrip l = [] ↔ l.all pyIsSpace = true := by
  unfold pyRstrip
  rw [List.reverse_eq_nil_iff, List.dropWhile_eq_nil_iff, ← List.all_reverse (l := l),
    List.all_eq_true]

lemma pyLstrip_all (l : List Char) : (pyLstrip l).all pyIsSpace = l.all pyIsSpace := by
  induction l with
  | nil => rfl
  | cons c cs ih =>
    unfold pyLstrip at *
    rw [List.dropWhile_cons]
    by_cases hc : pyIsSpace c = true
    · rw [if_pos hc, ih, List.all_cons, hc, Bool.true_and]
    · rw [if_neg hc]

lemma pyStrip_nil_iff (l : List Char) : pyStrip l = [] ↔ l.all pyIsSpace = true := by
  unfold pyStrip
  rw [pyRstrip_nil_iff, pyLstrip_all]

lemma getOff_append_single (l : List FileRow) (row : FileRow) (q : String) :
    getOff (l ++ [row]) q =
      match l.find? (fun r => r.file_path == q) with
      | some r => r.file_offset
      | none => if row.file_path == q then row.file_offset else 0 := by
  unfold getOff
  rw [List.find?_append]
  cases hf : l.find? (fun r => r.file_path == q) with
  | some r => rfl
  | none =>
    by_cases hrow : (row.file_path == q) = true
    · simp [List.find?, hrow]
    · simp [List.find?, hrow]

lemma get_file_id_offset (db : DBState) (fp q : String) :
    ((db.get_file_id fp).2).get_file_offset q = db.get_file_offset q := by
  unfold DBState.get_file_id DBState.get_file_offset
  cases hf : db.files.find? (fun r => r.file_path == fp) with
  | some r => rfl
  | none =>
    simp only []
    rw [getOff_append_single]
    by_cases hq : q = fp
    · subst hq
      rw [hf]
      unfold getOff
      rw [hf]
      simp
    · have hne : ((FileRow.mk db.nextId fp 0).file_path == q) = false :=
        beq_eq_false_iff_ne.mpr fun hfpq => hq hfpq.symm
      unfold getOff
      cases hfq : db.files.find? (fun r => r.file_path == q) with
      | some r => rfl
      | none => simp [hne]

lemma get_file_id_logs (db : DBState) (fp : String) :
    ((db.get_file_id fp).2).logs = db.logs := by
  unfold DBState.get_file_id
  cases db.files.find? (fun r => r.file_path == fp) <;> rfl

lemma processLines_files (tz : Int) (a b : String) (c : Nat) :
    ∀ (ls : List (List Char)) (db : DBState),
      ((processLines tz a b c ls db).1).files = db.files := by
  intro ls
  induction ls with
  | nil => intro db; rfl
  | cons l ls ih =>
    intro db
    unfold processLines
    cases parseLine tz l with
    | none => rfl
    | some p => rw [ih]; rfl

lemma processLines_offset (tz : Int) (a b : String) (c : Nat)
    (ls : List (List Char)) (db : DBState) (q : String) :
    ((processLines tz a b c ls db).1).get_file_offset q = db.get_file_offset q := by
  unfold DBState.get_file_offset
  rw [processLines_files]

lemma getOff_update_self (fp : String) (off : Nat) :
    ∀ l : List FileRow, l.any (fun r => r.file_path == fp) = true →
      getOff (l.map (fun r => if r.file_path == fp then { r with file_offset := off } else r)) fp
        = off := by
  intro l
  induction l with
  | nil => intro h; simp at h
  | cons r l ih =>
    intro h
    rw [List.map_cons]
    by_cases hr : (r.file_path == fp) = true
    · rw [if_pos hr]
      unfold getOff
      have hr2 : ((FileRow.mk r.id r.file_path off).file_path == fp) = true := hr
      rw [List.find?_cons_of_pos (p := fun x : FileRow => x.file_path == fp) _ hr2]
    · rw [if_neg hr]
      have h2 : l.any (fun r => r.file_path == fp) = true := by
        rw [List.any_cons, Bool.eq_false_iff.mpr hr, Bool.false_or] at h
        exact h
      unfold getOff
      rw [List.find?_cons_of_neg (p := fun x : FileRow => x.file_path == fp) _ hr]
      exact ih h2

lemma getOff_update_ne (fp q : String) (off : Nat) (hq : q ≠ fp) :
    ∀ l : List FileRow,
      getOff (l.map (fun r => if r.file_path == fp then { r with file_offset := off } else r)) q
        = getOff l q := by
  intro l
  induction l with
  | nil => rfl
  | cons r l ih =>
    rw [List.map_cons]
    by_cases hr : (r.file_path == fp) = true
    · have hrq : ¬ (r.file_path == q) = true := by
        have hre : r.file_path = fp := by simpa using hr
        rw [hre]
        simp only [beq_iff_eq]
        exact fun h => hq h.symm
      rw [if_pos hr]
      unfold getOff
      have hrq2 : ¬ ((FileRow.mk r.id r.file_path off).file_path == q) = true := hrq
      rw [List.find?_cons_of_neg (p := fun x : FileRow => x.file_path == q) _ hrq2,
        List.find?_cons_of_neg (p := fun x : FileRow => x.file_path == q) _ hrq]
      exact ih
    · rw [if_neg hr]
      by_cases hrq : (r.file_path == q) = true
      · unfold getOff
        rw [List.find?_cons_of_pos (p := fun x : FileRow => x.file_path == q) _ hrq,
          List.find?_cons_of_pos (p := fun x : FileRow => x.file_path == q) _ hrq]
      · unfold getOff
        rw [List.find?_cons_of_neg (p := fun x : FileRow => x.file_path == q) _ hrq,
          List.find?_cons_of_neg (p := fun x : FileRow => x.file_path == q) _ hrq]
        exact ih

lemma upsert_offset_self (db : DBState) (fp : String) (off : Nat) :
    (db.upsert_file fp off).get_file_offset fp = off := by
  unfold DBState.upsert_file DBState.get_file_offset
  by_cases hany : (db.files.any fun r => r.file_path == fp) = true
  · rw [if_pos hany]
    exact getOff_update_self fp off db.files hany
  · rw [if_neg hany]
    simp only []
    rw [getOff_append_single]
    have hf : db.files.find? (fun r => r.file_path == fp) = none := by
      rw [List.find?_eq_none]
      intro x hx hpx
      exact hany (List.any_eq_true.mpr ⟨x, hx, hpx⟩)
    rw [hf]
    simp

lemma upsert_offset_ne (db : DBState) (fp q : String) (off : Nat) (hq : q ≠ fp) :
    (db.upsert_file fp off).get_file_offset q = db.get_file_offset q := by
  unfold DBState.upsert_file DBState.get_file_offset
  by_cases hany : (db.files.any fun r => r.file_path == fp) = true
  · rw [if_pos hany]
    exact getOff_update_ne fp q off hq db.files
  · rw [if_neg hany]
    simp only []
    rw [getOff_append_single]
    have hne : ((FileRow.mk db.nextId fp off).file_path == q) = false :=
      beq_eq_false_iff_ne.mpr fun h => hq h.symm
    unfold getOff
    cases hfq : db.files.find? (fun r => r.file_path == q) with
    | some r => rfl
    | none => simp [hne]

lemma parse_file_eq_nosplit (tz : Int) (fs : FileSys) (fp : String) (off : Nat) (db : DBState)
    (h : rsplitOnce '_' (pyStem (pyBasename fp)).toList = none) :
    parse_file tz fs fp off db = (db, false) := by
  unfold parse_file
  rw [h]

lemma parse_file_eq_io (tz : Int) (fs : FileSys) (fp : String) (off : Nat) (db : DBState)
    (en ei : List Char)
    (hsplit : rsplitOnce '_' (pyStem (pyBasename fp)).toList = some (en, ei))
    (hio : fs fp = none) :
    parse_file tz fs fp off db = ((db.get_file_id fp).2, false) := by
  unfold parse_file
  rw [hsplit, hio]

lemma parse_file_eq_content (tz : Int) (fs : FileSys) (fp : String) (off : Nat) (db : DBState)
    (en ei : List Char) (content : List Char)
    (hsplit : rsplitOnce '_' (pyStem (pyBasename fp)).toList = some (en, ei))
    (hc : fs fp = some content) :
    parse_file tz fs fp off db =
      (let g := db.get_file_id fp
       let rest := content.drop off
       let r := processLines tz (String.mk ei) (String.mk en) g.1 (splitLinesKeep rest) g.2
       if r.2 then
         if off < off + rest.length then (r.1.upsert_file fp (off + rest.length), true)
         else (r.1, true)
       else (r.1, false)) := by
  unfold parse_file
  rw [hsplit, hc]

lemma parse_file_fail_offset (tz : Int) (fs : FileSys) (fp : String) (off : Nat) (db : DBState)
    (h : (parse_file tz fs fp off db).2 = false) (q : String) :
    ((parse_file tz fs fp off db).1).get_file_offset q = db.get_file_offset q := by
  cases hsplit : rsplitOnce '_' (pyStem (pyBasename fp)).toList with
  | none => rw [parse_file_eq_nosplit tz fs fp off db hsplit]
  | some p =>
    obtain ⟨en, ei⟩ := p
    cases hc : fs fp with
    | none =>
      rw [parse_file_eq_io tz fs fp off db en ei hsplit hc]
      exact get_file_id_offset db fp q
    | some content =>
      rw [parse_file_eq_content tz fs fp off db en ei content hsplit hc] at h ⊢
      simp only [] at h ⊢
      by_cases hr : (processLines tz (String.mk ei) (String.mk en) ((db.get_file_id fp).1)
          (splitLinesKeep (content.drop off)) ((db.get_file_id fp).2)).2 = true
      · exfalso
        rw [if_pos hr] at h
        by_cases hlt : off < off + (content.drop off).length
        · rw [if_pos hlt] at h
          simp at h
        · rw [if_neg hlt] at h
          simp at h
      · rw [if_neg hr]
        simp only []
        rw [processLines_offset]
        exact get_file_id_offset db fp q

lemma parse_file_mono (tz : Int) (fs : FileSys) (fp : String) (db : DBState) (q : String) :
    db.get_file_offset q ≤
      ((parse_file tz fs fp (db.get_file_offset fp) db).1).get_file_offset q := by
  cases hsplit : rsplitOnce '_' (pyStem (pyBasename fp)).toList with
  | none =>
    rw [parse_file_eq_nosplit _ _ _ _ _ hsplit]
  | some p =>
    obtain ⟨en, ei⟩ := p
    cases hc : fs fp with
    | none =>
      rw [parse_file_eq_io _ _ _ _ _ en ei hsplit hc, get_file_id_offset]
    | some content =>
      rw [parse_file_eq_content _ _ _ _ _ en ei content hsplit hc]
      simp only []
      by_cases hr : (processLines tz (String.mk ei) (String.mk en) ((db.get_file_id fp).1)
          (splitLinesKeep (content.drop (db.get_file_offset fp))) ((db.get_file_id fp).2)).2 = true
      · rw [if_pos hr]
        by_cases hlt : db.get_file_offset fp <
            db.get_file_offset fp + (content.drop (db.get_file_offset fp)).length
        · rw [if_pos hlt]
          simp only []
          by_cases hq : q = fp
          · subst hq
            rw [upsert_offset_self]
            exact Nat.le_add_right _ _
          · rw [upsert_offset_ne _ _ _ _ hq, processLines_offset, get_file_id_offset]
        · rw [if_neg hlt]
          simp only []
          rw [processLines_offset, get_file_id_offset]
      · rw [if_neg hr]
        simp only []
        rw [processLines_offset, get_file_id_offset]

lemma parse_file_no_new (tz : Int) (fs : FileSys) (fp : String) (db : DBState)
    (h : contentLen fs fp ≤ db.get_file_offset fp) (q : String) :
    ((parse_file tz fs fp (db.get_file_offset fp) db).1).get_file_offset q
      = db.get_file_offset q := by
  cases hsplit : rsplitOnce '_' (pyStem (pyBasename fp)).toList with
  | none => rw [parse_file_eq_nosplit _ _ _ _ _ hsplit]
  | some p =>
    obtain ⟨en, ei⟩ := p
    cases hc : fs fp with
    | none =>
      rw [parse_file_eq_io _ _ _ _ _ en ei hsplit hc, get_file_id_offset]
    | some content =>
      have hlen : content.length ≤ db.get_file_offset fp := by
        unfold contentLen at h
        rw [hc] at h
        exact h
      have hrest : content.drop (db.get_file_offset fp) = [] :=
        List.drop_eq_nil_of_le hlen
      rw [parse_file_eq_content _ _ _ _ _ en ei content hsplit hc]
      simp only []
      rw [hrest]
      simp [splitLinesKeep, processLines, get_file_id_offset]

lemma run_mono (tz : Int) (fs : FileSys) :
    ∀ (files : List String) (db : DBState) (q : String),
      db.get_file_offset q ≤ ((import_new_data tz fs files db).1).get_file_offset q := by
  intro files
  induction files with
  | nil => intro db q; exact Nat.le_refl _
  | cons f rest ih =>
    intro db q
    unfold import_new_data
    simp only []
    by_cases hr : (parse_file tz fs f (db.get_file_offset f) db).2 = true
    · rw [if_pos hr]
      exact Nat.le_trans (parse_file_mono tz fs f db q) (ih _ q)
    · rw [if_neg hr]
      exact parse_file_mono tz fs f db q

lemma run_no_new (tz : Int) (fs : FileSys) :
    ∀ (files : List String) (db : DBState),
      (∀ f ∈ files, contentLen fs f ≤ db.get_file_offset f) →
      ∀ q, ((import_new_data tz fs files db).1).get_file_offset q = db.get_file_offset q := by
  intro files
  induction files with
  | nil => intro db _ q; rfl
  | cons f rest ih =>
    intro db h q
    unfold import_new_data
    simp only []
    have hf := parse_file_no_new tz fs f db (h f (List.mem_cons_self f rest))
    by_cases hr : (parse_file tz fs f (db.get_file_offset f) db).2 = true
    · rw [if_pos hr]
      have hrest : ∀ g ∈ rest,
          contentLen fs g ≤
            ((parse_file tz fs f (db.get_file_offset f) db).1).get_file_offset g := by
        intro g hg
        rw [hf g]
        exact h g (List.mem_cons_of_mem f hg)
      rw [ih _ hrest q]
      exact hf q
    · rw [if_neg hr]
      exact hf q

lemma rsplitOnce_eq_none (sep : Char) :
    ∀ l : List Char, sep ∉ l → rsplitOnce sep l = none := by
  intro l
  induction l with
  | nil => intro _; rfl
  | cons c cs ih =>
    intro h
    have hc : c ≠ sep := fun hcs => h (hcs ▸ List.mem_cons_self c cs)
    have hcs : sep ∉ cs := fun hm => h (List.mem_cons_of_mem c hm)
    unfold rsplitOnce
    rw [ih hcs, if_neg hc]

/-- C1.  The spec claims files are processed independently: a failure confined
to one file must not prevent the remaining files from being processed, and the
run completes with entries for every well-formed file.  The code has no
try/except around `parse_file` in `Importer.import_new_data`, so the first
failing file aborts the run: over a directory holding `a_1.log` (whose only
line has a malformed bracketed timestamp) followed by the well-formed
`b_2.log`, the run ends in failure with no entries at all — although `b_2.log`
processed alone does yield its entry (third conjunct). -/
theorem C1_counterexample :
    (import_new_data 0 fsC1 (["a_1.log", "b_2.log"]) db0).2 = false
    ∧ (import_new_data 0 fsC1 (["a_1.log", "b_2.log"]) db0).1.logs = []
    ∧ (import_new_data 0 fsC1 (["b_2.log"]) db0).1.logs
        = [⟨"2", "b", "Goblin", "empty line", 0, "dies\n", 1⟩] :=
  ⟨rfl, rfl, rfl⟩

/-- C1, amended.  A failure on one file aborts the whole run in
`Importer.import_new_data`: the flag comes back `false`, and the files listed
after the failing one are never consulted — the result is the same whatever
list of remaining files follows it. -/
theorem C1_amended_run_aborts (tz : Int) (fs : FileSys) (f : String)
    (rest rest' : List String) (db : DBState)
    (h : (parse_file tz fs f (db.get_file_offset f) db).2 = false) :
    (import_new_data tz fs (f :: rest) db).2 = false
    ∧ import_new_data tz fs (f :: rest) db = import_new_data tz fs (f :: rest') db := by
  constructor
  · unfold import_new_data
    simp only []
    rw [if_neg (by rw [h]; exact Bool.false_ne_true)]
  · unfold import_new_data
    simp only []
    rw [if_neg (by rw [h]; exact Bool.false_ne_true),
      if_neg (by rw [h]; exact Bool.false_ne_true)]

/-- Witness for C1: the amended theorem applied to the concrete directory of
`C1_counterexample`. -/
theorem C1_witness :
    (import_new_data 0 fsC1 (["a_1.log", "b_2.log"]) db0).2 = false
    ∧ import_new_data 0 fsC1 (["a_1.log", "b_2.log"]) db0
        = import_new_data 0 fsC1 (["a_1.log", "deathlog_9.txt"]) db0 :=
  C1_amended_run_aborts 0 fsC1 ("a_1.log") (["b_2.log"]) (["deathlog_9.txt"]) db0 (by decide)

/-- C2.  When a pass over a file fails partway — the flag of `parse_file` is
`false`, covering a malformed bracketed timestamp, a filename without `_`,
or an I/O error on open — the stored offset for that file is unchanged: the
`upsert_file` commit sits after the line loop and is skipped on any raise,
so the next run resumes from the last confirmed-good offset. -/
theorem C2_failed_pass_keeps_offset (tz : Int) (fs : FileSys) (fp : String) (off : Nat)
    (db : DBState) (h : (parse_file tz fs fp off db).2 = false) :
    ((parse_file tz fs fp off db).1).get_file_offset fp = db.get_file_offset fp :=
  parse_file_fail_offset tz fs fp off db h fp

/-- Witness for C2: the malformed-timestamp file `a_1.log` fails its pass and
its stored offset is untouched. -/
theorem C2_witness :
    ((parse_file 0 fsC1 ("a_1.log") 0 db0).1).get_file_offset ("a_1.log")
      = db0.get_file_offset ("a_1.log") :=
  C2_failed_pass_keeps_offset 0 fsC1 ("a_1.log") 0 db0 (by decide)

/-- C3.  Stored offsets are monotonically non-decreasing across runs (for every
path), and when no file of the run has new bytes beyond its stored offset
(including offsets already at or past end of file) the offset-commit step is
skipped, so every stored offset is left exactly unchanged. -/
theorem C3_offset_monotone_idempotent (tz : Int) (fs : FileSys) (files : List String)
    (db : DBState) :
    (∀ p, db.get_file_offset p ≤ ((import_new_data tz fs files db).1).get_file_offset p)
    ∧ ((∀ f ∈ files, contentLen fs f ≤ db.get_file_offset f) →
        ∀ p, ((import_new_data tz fs files db).1).get_file_offset p = db.get_file_offset p) :=
  ⟨fun p => run_mono tz fs files db p, fun h p => run_no_new tz fs files db h p⟩

/-- Witness for C3: a store already holding `b_2.log` at offset 12 (its full
12-byte content) is left unchanged by a re-run. -/
theorem C3_witness :
    ((import_new_data 0 fsC1 (["b_2.log"]) dbW).1).get_file_offset ("b_2.log")
      = dbW.get_file_offset ("b_2.log") :=
  (C3_offset_monotone_idempotent 0 fsC1 (["b_2.log"]) dbW).2 (by decide) ("b_2.log")

/-- C4, counterexample.  The claim says the bracketed-line message body is
`line[22:]` with only TRAILING whitespace trimmed, yet also that the example
line yields actor `"Orc"`.  The code applies `strip()` — both ends.  On the
claim's own example line, `line[22:]` begins with a space, so the
trailing-only body would make the actor the empty string, not `"Orc"`: the
code's parse (first two conjuncts) disagrees with the actor computed from the
trailing-only-trimmed body (third conjunct). -/
theorem C4_counterexample :
    parseLine 0 claimLine = some claimParsed
    ∧ claimParsed.who = "Orc"
    ∧ (partSpace (pyRstrip (claimLine.drop 22))).1 ≠ ("Orc").toList :=
  ⟨rfl, rfl, by decide⟩

/-- C4, amended.  For a line beginning with `[`, the parser takes characters
1–19 inclusive (Python `line[1:20]`) as the timestamp string, converts it to a
local-time epoch from the parsed month/day/year/hour/minute/second fields, and
takes the message body from character 22 onward stripped of BOTH leading and
trailing whitespace before the actor split; the spec's example line yields
timestamp `"01/15/2024 13:45:02"`, epoch equal to the local Unix time of
2024-01-15T13:45:02, actor `"Orc"` and message `"hits Goblin for 5"`. -/
theorem C4_amended_bracket_parse (tz : Int) :
    parseLine tz claimLine =
      some ⟨"01/15/2024 13:45:02", localEpoch tz 2024 1 15 13 45 2, "Orc", "hits Goblin for 5"⟩
    ∧ ∀ (line : List Char) (p : ParsedLine), line.head? = some '[' →
        parseLine tz line = some p →
        (p.timestamp = String.mk ((line.take 20).drop 1)
         ∧ (∃ y m d h mi s, strptimeMDY ((line.take 20).drop 1) = some (y, m, d, h, mi, s)
              ∧ p.epoch = localEpoch tz y m d h mi s)
         ∧ (p.who, p.what) = (String.mk (partSpace (pyStrip (line.drop 22))).1,
              String.mk (partSpace (pyStrip (line.drop 22))).2)) := by
  constructor
  · rfl
  · intro line p hhead hp
    unfold parseLine at hp
    rw [if_pos hhead] at hp
    simp only [] at hp
    cases hts : strptimeMDY ((line.take 20).drop 1) with
    | none => rw [hts] at hp; exact absurd hp (by simp)
    | some v =>
      obtain ⟨y, m, d, h, mi, s⟩ := v
      rw [hts] at hp
      simp only [Option.some.injEq] at hp
      subst hp
      exact ⟨rfl, ⟨y, m, d, h, mi, s, rfl, rfl⟩, rfl⟩

/-- Witness for C4: the amended theorem applied at `tz = 0` to the spec's
example line. -/
theorem C4_witness :
    claimParsed.timestamp = String.mk ((claimLine.take 20).drop 1) :=
  ((C4_amended_bracket_parse 0).2 claimLine claimParsed rfl rfl).1

/-- C5.  A line not beginning with `[` is parsed with the literal timestamp
marker `"empty line"`, epoch `0`, and the untrimmed line itself as the message
body for the actor split; in particular `"Goblin dies"` yields actor
`"Goblin"` and message `"dies"`. -/
theorem C5_fallback_parse (tz : Int) :
    (∀ line : List Char, line.head? ≠ some '[' →
      parseLine tz line =
        some ⟨"empty line", 0, String.mk (partSpace line).1, String.mk (partSpace line).2⟩)
    ∧ parseLine tz (("Goblin dies").toList) = some ⟨"empty line", 0, "Goblin", "dies"⟩ := by
  constructor
  · intro line h
    unfold parseLine
    rw [if_neg h]
  · rfl

/-- Witness for C5: the fallback path applied to the spec's example line. -/
theorem C5_witness :
    parseLine 0 (("Goblin dies").toList) =
      some ⟨"empty line", 0, String.mk (partSpace (("Goblin dies").toList)).1,
        String.mk (partSpace (("Goblin dies").toList)).2⟩ :=
  (C5_fallback_parse 0).1 (("Goblin dies").toList) (by decide)

/-- C6, counterexample.  The claim says a line that is only a newline yields
an empty actor and empty message.  The code keeps the untrimmed line `"\n"`
as the body on the no-timestamp path and `partition(" ")` finds no space, so
the actor is the newline string itself, which is not empty (the message is
indeed empty). -/
theorem C6_counterexample :
    parseLine 0 (['\n']) = some ⟨"empty line", 0, "\n", ""⟩ ∧ ("\n" : String) ≠ "" :=
  ⟨rfl, by decide⟩

/-- C6, amended.  A line consisting of only a newline yields the one-character
actor `"\n"` (the untrimmed line) and an empty message. -/
theorem C6_amended_newline_line (tz : Int) :
    parseLine tz (['\n']) = some ⟨"empty line", 0, "\n", ""⟩ :=
  rfl

/-- C7, counterexample.  The claim says the stored message is trimmed of
trailing whitespace and the line terminator on BOTH paths.  On the
no-timestamp path the line is kept untrimmed, so `"Goblin dies\n"` stores the
message `"dies\n"`, which still carries the terminator. -/
theorem C7_counterexample :
    parseLine 0 (("Goblin dies\n").toList) = some ⟨"empty line", 0, "Goblin", "dies\n"⟩
    ∧ pyRstrip (("dies\n").toList) ≠ ("dies\n").toList :=
  ⟨rfl, by decide⟩

/-- C7, amended.  On the bracketed path the message is the part of the
both-ends-stripped body after the first space, and therefore never ends in
whitespace or a line terminator; on the no-timestamp path the actor/message
pair is the split of the untrimmed line, so a trailing terminator is kept. -/
theorem C7_amended_message_trim (tz : Int) :
    (∀ (line : List Char) (p : ParsedLine), parseLine tz line = some p →
        line.head? = some '[' →
        ((p.who, p.what) = (String.mk (partSpace (pyStrip (line.drop 22))).1,
            String.mk (partSpace (pyStrip (line.drop 22))).2)
         ∧ ∀ c, p.what.toList.getLast? = some c → pyIsSpace c = false))
    ∧ (∀ (line : List Char) (p : ParsedLine), parseLine tz line = some p →
        line.head? ≠ some '[' →
        (p.who, p.what) = (String.mk (partSpace line).1, String.mk (partSpace line).2)) := by
  constructor
  · intro line p hp hhead
    unfold parseLine at hp
    rw [if_pos hhead] at hp
    simp only [] at hp
    cases hts : strptimeMDY ((line.take 20).drop 1) with
    | none => rw [hts] at hp; exact absurd hp (by simp)
    | some v =>
      obtain ⟨y, m, d, h, mi, s⟩ := v
      rw [hts] at hp
      simp only [Option.some.injEq] at hp
      subst hp
      refine ⟨rfl, ?_⟩
      intro c hc
      have hc2 : (partSpace (pyStrip (line.drop 22))).2.getLast? = some c := hc
      exact pyStrip_getLast _ _ (partSpace_snd_getLast _ _ hc2)
  · intro line p hp hhead
    unfold parseLine at hp
    rw [if_neg hhead] at hp
    simp only [Option.some.injEq] at hp
    subst hp
    rfl

/-- Witness for C7: the bracketed part of the amended theorem applied to the
spec's example line (whose message ends in the non-whitespace `'5'`). -/
theorem C7_witness : pyIsSpace ('5') = false :=
  ((C7_amended_message_trim 0).1 claimLine claimParsed rfl rfl).2 ('5') (by decide)

/-- C8.  Tailing a file from an offset beyond its length does not crash: the
pass succeeds (`seek` past EOF reads nothing), no log entries are produced,
and no stored offset changes — the situation is treated as no new data
(`tell() > offset` is false, so `upsert_file` is skipped). -/
theorem C8_offset_beyond_eof (tz : Int) (fs : FileSys) (fp : String) (off : Nat)
    (db : DBState) (content : List Char)
    (h1 : fs fp = some content) (h2 : content.length < off)
    (h3 : (rsplitOnce '_' (pyStem (pyBasename fp)).toList).isSome = true) :
    (parse_file tz fs fp off db).2 = true
    ∧ ((parse_file tz fs fp off db).1).logs = db.logs
    ∧ ∀ q, ((parse_file tz fs fp off db).1).get_file_offset q = db.get_file_offset q := by
  obtain ⟨v, hsplit⟩ := Option.isSome_iff_exists.mp h3
  obtain ⟨en, ei⟩ := v
  have hrest : content.drop off = [] := List.drop_eq_nil_of_le (Nat.le_of_lt h2)
  rw [parse_file_eq_content tz fs fp off db en ei content hsplit h1]
  simp only []
  rw [hrest]
  refine ⟨?_, ?_, ?_⟩
  · simp [splitLinesKeep, processLines]
  · simp [splitLinesKeep, processLines, get_file_id_logs]
  · intro q
    simp [splitLinesKeep, processLines, get_file_id_offset]

/-- Witness for C8: reading `b_2.log` (12 bytes) from stored offset 99. -/
theorem C8_witness :
    (parse_file 0 fsC1 ("b_2.log") 99 db0).2 = true
    ∧ ((parse_file 0 fsC1 ("b_2.log") 99 db0).1).logs = db0.logs
    ∧ ∀ q, ((parse_file 0 fsC1 ("b_2.log") 99 db0).1).get_file_offset q
        = db0.get_file_offset q :=
  C8_offset_beyond_eof 0 fsC1 ("b_2.log") 99 db0 (("Goblin dies\n").toList)
    rfl (by decide) (by decide)

/-- C9.  On the bracketed path the body `line[22:]` is stripped of leading as
well as trailing whitespace before the actor split, so the actor never starts
with (hence never is) whitespace, and it is empty exactly when everything
after position 22 is whitespace; an empty actor caused by a body that starts
with whitespace does arise on the no-timestamp path, where the line is kept
as-is (second conjunct). -/
theorem C9_bracket_actor_not_whitespace (tz : Int) :
    (∀ (line : List Char) (p : ParsedLine), parseLine tz line = some p →
        line.head? = some '[' →
        ((p.who = "" ↔ (line.drop 22).all pyIsSpace = true)
         ∧ ∀ c, p.who.toList.head? = some c → pyIsSpace c = false))
    ∧ parseLine tz ((" leading").toList) = some ⟨"empty line", 0, "", "leading"⟩ := by
  constructor
  · intro line p hp hhead
    unfold parseLine at hp
    rw [if_pos hhead] at hp
    simp only [] at hp
    cases hts : strptimeMDY ((line.take 20).drop 1) with
    | none => rw [hts] at hp; exact absurd hp (by simp)
    | some v =>
      obtain ⟨y, m, d, h, mi, s⟩ := v
      rw [hts] at hp
      simp only [Option.some.injEq] at hp
      subst hp
      constructor
      · rw [mk_eq_empty_iff, partSpace_fst_nil_iff, ← pyStrip_nil_iff]
        constructor
        · intro hcase
          cases hcase with
          | inl hnil => exact hnil
          | inr hsp =>
            exfalso
            have := head_pyStrip _ _ hsp
            simp [pyIsSpace] at this
        · intro hnil
          exact Or.inl hnil
      · intro c hc
        have hc2 : (partSpace (pyStrip (line.drop 22))).1.head? = some c := hc
        exact head_pyStrip _ _ (partSpace_fst_head _ _ hc2)
  · rfl

/-- Witness for C9: the example line's actor `"Orc"` is nonempty, matching the
fact that its body is not all whitespace. -/
theorem C9_witness :
    claimParsed.who = "" ↔ (claimLine.drop 22).all pyIsSpace = true :=
  ((C9_bracket_actor_not_whitespace 0).1 claimLine claimParsed rfl rfl).1

/-- C10.  The filename-derived entity fields are never validated: every stem
containing `_` splits at its last `_` with both pieces accepted verbatim (the
id piece may be empty, as for the stem `"name_"`, or non-numeric), and the id
string is stored unchanged in the `logs` row although the schema declares the
`entity_id` column `INTEGER`: parsing `name_.log` stores a row whose
`entity_id` is the empty string. -/
theorem C10_entity_fields_unvalidated (tz : Int) :
    (∀ s : List Char, '_' ∈ s →
        ∃ a b, rsplitOnce '_' s = some (a, b) ∧ s = a ++ '_' :: b ∧ '_' ∉ b)
    ∧ rsplitOnce '_' (("name_").toList) = some (("name").toList, [])
    ∧ logs_schema.lookup ("entity_id") = some ("INTEGER")
    ∧ (parse_file tz fsC10 ("name_.log") 0 db0).1.logs
        = [⟨"", "name", "Goblin", "empty line", 0, "dies\n", 1⟩] := by
  refine ⟨?_, rfl, rfl, rfl⟩
  intro s
  induction s with
  | nil => intro h; exact absurd h (List.not_mem_nil '_')
  | cons c cs ih =>
    intro h
    by_cases hcs : '_' ∈ cs
    · obtain ⟨a, b, h1, h2, h3⟩ := ih hcs
      refine ⟨c :: a, b, ?_, ?_, h3⟩
      · unfold rsplitOnce
        rw [h1]
      · rw [List.cons_append, ← h2]
    · have hc : c = '_' := by
        cases List.mem_cons.mp h with
        | inl h' => exact h'.symm
        | inr h' => exact absurd h' hcs
      refine ⟨[], cs, ?_, ?_, hcs⟩
      · unfold rsplitOnce
        rw [rsplitOnce_eq_none '_' cs hcs, if_pos hc]
      · rw [hc]
        rfl

/-- Witness for C10: the last-underscore split of the spec's two-underscore
stem `"Boss_Raid_77"`. -/
theorem C10_witness :
    ∃ a b, rsplitOnce '_' (("Boss_Raid_77").toList) = some (a, b)
      ∧ ("Boss_Raid_77").toList = a ++ '_' :: b ∧ '_' ∉ b :=
  (C10_entity_fields_unvalidated 0).1 (("Boss_Raid_77").toList) (by decide)
